import Mathlib

/-!
Shallow embedding of the context-budgeting and message-handling logic of the
AI-Commit command-line tool, together with theorems about the embedded
functions.

The embedding follows the JavaScript source:

* `src/git.js` — token estimation (`estimateTokens`), the hard context-size
  limiter (`limitContextSize`), binary-file detection (`isBinaryFile`) and the
  per-file context builder (`getStagedFileContents`).  External effects
  (`execSync` calls to `file`, `stat`, `git show`, `git diff`) are modelled by
  a `GitOracle` of response functions, and the calls a run performs are
  recorded as a list of `GitCall` values.
* `src/ai.js` — the prompt builders (`getCommitPrompt`, `getMinimalPrompt`),
  the token-based fallback in `generateCommitMessage`, the markdown sanitizer
  (`cleanCommitMessage`, whose JavaScript regex passes are modelled by
  explicit character-list scanners) and the advisory message linter
  (`validateCommitMessage`).
* `src/constants.js` — `COMMIT_RULES` bounds and default configuration
  values.

JavaScript numbers on the reachable values are naturals, so machine-level
overflow is not modelled; `Math.floor` on non-negative division is `Nat`
division and `Math.ceil (n / 4)` is `(n + 3) / 4`.  JavaScript string indices
count UTF-16 units; every string reasoned about here lies in the basic
multilingual plane, where UTF-16 units and characters coincide.
-/

namespace AICommit

/-! ## Generic helpers shared by the embedded functions -/

/-- Substring test on character lists: does `s` contain `pat` as a contiguous
infix?  Models JavaScript `String.prototype.includes`. -/
def listContainsSub (pat : List Char) : List Char → Bool
  | [] => pat.isEmpty
  | c :: rest => pat.isPrefixOf (c :: rest) || listContainsSub pat rest

/-- JavaScript `haystack.includes(needle)`. -/
def strIncludes (haystack needle : String) : Bool :=
  listContainsSub needle.data haystack.data

/-- The JavaScript whitespace class `\s` (also the class trimmed by
`String.prototype.trim`). -/
def isJsSpace (c : Char) : Bool :=
  c = ' ' || c = '\t' || c = '\n' || c = '\x0b' || c = '\x0c' || c = '\r' ||
  c.val = 0xa0 || c.val = 0x1680 || (0x2000 ≤ c.val && c.val ≤ 0x200a) ||
  c.val = 0x2028 || c.val = 0x2029 || c.val = 0x202f || c.val = 0x205f ||
  c.val = 0x3000 || c.val = 0xfeff

/-- Drop the longest suffix of `l` all of whose characters satisfy `p`. -/
def dropEndWhile (p : Char → Bool) (l : List Char) : List Char :=
  (l.reverse.dropWhile p).reverse

/-- JavaScript `String.prototype.trim` on a character list. -/
def jsTrimList (l : List Char) : List Char :=
  dropEndWhile isJsSpace (l.dropWhile isJsSpace)

/-- JavaScript `String.prototype.trim`. -/
def jsTrim (s : String) : String :=
  ⟨jsTrimList s.data⟩

/-- JavaScript `x || d` for an optional numeric configuration field:
`none` (absent) and `0` (falsy) both fall back to the default `d`. -/
def jsOrDefault (v : Option Nat) (d : Nat) : Nat :=
  match v with
  | some n => if n = 0 then d else n
  | none => d

/-- Split a character list at every occurrence of the character `sep`.
Models JavaScript `String.prototype.split` with a one-character separator
(the only form the embedded code uses). -/
def splitOnChar (sep : Char) : List Char → List (List Char)
  | [] => [[]]
  | c :: rest =>
    if c = sep then [] :: splitOnChar sep rest
    else
      match splitOnChar sep rest with
      | ln :: lns => (c :: ln) :: lns
      | [] => [[c]]

/-- Join character lists with the character `sep` between them.  Models
JavaScript `Array.prototype.join` with a one-character separator. -/
def joinWithChar (sep : Char) : List (List Char) → List Char
  | [] => []
  | [l] => l
  | l :: ls => l ++ sep :: joinWithChar sep ls

/-- JavaScript `s.split(sep)` for a one-character separator, on `String`. -/
def strSplit (s : String) (sep : Char) : List String :=
  (splitOnChar sep s.data).map fun l => ⟨l⟩

/-- JavaScript `parts.join(sep)` for a one-character separator, on `String`. -/
def strJoin (parts : List String) (sep : Char) : String :=
  ⟨joinWithChar sep (parts.map String.data)⟩

/-- JavaScript `s.toLowerCase()` (ASCII range; the embedded code only lowers
file extensions and commit subjects). -/
def jsToLower (s : String) : String :=
  ⟨s.data.map Char.toLower⟩

/-- JavaScript `s.endsWith(suffix)`. -/
def strEndsWith (s suffix : String) : Bool :=
  suffix.data.isSuffixOf s.data

/-! ## `src/git.js` — token estimation and the hard context limiter -/

/-- `GitManager.estimateTokens`: `Math.ceil(text.length / 4)`. -/
def estimateTokens (text : String) : Nat :=
  (text.length + 3) / 4

/-- JavaScript `s.substring(0, n)` (for `n` counted in characters). -/
def jsSubstring (s : String) (n : Nat) : String :=
  ⟨s.data.take n⟩

/-- The marker `limitContextSize` appends after hard truncation
(`"\n\n" + "[CONTEXT TRUNCATED DUE TO SIZE LIMITS - USING DIFF ONLY FOR ANALYSIS]"`). -/
def CONTEXT_TRUNCATED_MARKER : String :=
  "\n\n[CONTEXT TRUNCATED DUE TO SIZE LIMITS - USING DIFF ONLY FOR ANALYSIS]"

/-- `GitManager.limitContextSize` with the token limit already resolved:
if the estimated token count fits, return the context unchanged, otherwise
truncate to `tokenLimit * 4` characters and append the truncation marker. -/
def limitContextSize (context : String) (tokenLimit : Nat) : String :=
  if estimateTokens context ≤ tokenLimit then context
  else jsSubstring context (tokenLimit * 4) ++ CONTEXT_TRUNCATED_MARKER

/-- The token limit `limitContextSize` resolves when called with no explicit
`maxTokens` (every call site in `git.js` passes none):
`this.config.contextSizeLimit || 40000`. -/
def resolveContextLimit (configLimit : Option Nat) : Nat :=
  jsOrDefault configLimit 40000

/-! ## `src/git.js` — the per-file context budget arithmetic -/

/-- `maxContextPerFile = Math.max(10, Math.floor(5000 / totalFiles))`. -/
def maxContextPerFile (totalFiles : Nat) : Nat :=
  max 10 (5000 / totalFiles)

/-- `maxLinesPerFile = Math.max(5, Math.floor(maxContextPerFile / 4))`. -/
def maxLinesPerFile (totalFiles : Nat) : Nat :=
  max 5 (maxContextPerFile totalFiles / 4)

/-- `linesPerSection = Math.max(3, Math.floor(maxLinesPerFile / 3))`. -/
def linesPerSection (totalFiles : Nat) : Nat :=
  max 3 (maxLinesPerFile totalFiles / 3)

/-- `maxDiffLines = Math.max(10, Math.floor(maxLinesPerFile / 2))`. -/
def maxDiffLines (totalFiles : Nat) : Nat :=
  max 10 (maxLinesPerFile totalFiles / 2)

/-! ## Theorems for the size limiter and the budget floors -/

theorem string_length_append (a b : String) :
    (a ++ b).length = a.length + b.length := by
  cases a with
  | mk xa =>
    cases b with
    | mk xb =>
      change (String.mk (xa ++ xb)).length = (String.mk xa).length + (String.mk xb).length
      simp

theorem length_jsSubstring (s : String) (n : Nat) :
    (jsSubstring s n).length = min n s.length := by
  cases s
  simp [jsSubstring, String.length]

/-- C10: `limitContextSize` is the identity on every context whose estimated
token count (`ceil(length / 4)`) is at most the token limit; in particular no
truncation marker is appended to a context that fits the budget. -/
theorem limitContextSize_id_of_fits (context : String) (tokenLimit : Nat)
    (h : estimateTokens context ≤ tokenLimit) :
    limitContextSize context tokenLimit = context := by
  simp [limitContextSize, h]

theorem limitContextSize_id_of_fits_witness :
    estimateTokens "abc" ≤ 5 ∧ limitContextSize "abc" 5 = "abc" :=
  ⟨by decide, limitContextSize_id_of_fits "abc" 5 (by decide)⟩

/-- C1 counterexample: with token ceiling `2`, the ten-character context
`"0123456789"` estimates to `3 > 2` tokens, so `limitContextSize` truncates to
`8` characters and appends the 71-character marker; the returned string
estimates to `20` tokens, refuting the claim that the returned string always
estimates to at most the ceiling. -/
theorem limitContextSize_exceeds_limit :
    ¬ (estimateTokens (limitContextSize "0123456789" 2) ≤ 2) := by
  decide

/-- C1 (amended): after the final hard-truncation pass the estimated token
count of the returned string is at most the token ceiling plus the estimated
token count of the appended truncation marker (18 tokens); the truncated
content itself — the first `tokenLimit * 4` characters, before the marker —
estimates to at most the ceiling. -/
theorem limitContextSize_le_limit_add_marker (context : String) (tokenLimit : Nat) :
    estimateTokens (limitContextSize context tokenLimit)
      ≤ tokenLimit + estimateTokens CONTEXT_TRUNCATED_MARKER
    ∧ estimateTokens (jsSubstring context (tokenLimit * 4)) ≤ tokenLimit := by
  have hsub : estimateTokens (jsSubstring context (tokenLimit * 4)) ≤ tokenLimit := by
    have hlen := length_jsSubstring context (tokenLimit * 4)
    have hmin : min (tokenLimit * 4) context.length ≤ tokenLimit * 4 :=
      Nat.min_le_left _ _
    simp only [estimateTokens, hlen]
    omega
  refine ⟨?_, hsub⟩
  by_cases h : estimateTokens context ≤ tokenLimit
  · rw [limitContextSize_id_of_fits context tokenLimit h]
    exact Nat.le_add_right_of_le h
  · have hmark : estimateTokens CONTEXT_TRUNCATED_MARKER = 18 := by decide
    have hmlen : CONTEXT_TRUNCATED_MARKER.length = 71 := by decide
    simp only [limitContextSize, h, if_false]
    have hlen := length_jsSubstring context (tokenLimit * 4)
    have happ := string_length_append (jsSubstring context (tokenLimit * 4))
      CONTEXT_TRUNCATED_MARKER
    have hmin : min (tokenLimit * 4) context.length ≤ tokenLimit * 4 :=
      Nat.min_le_left _ _
    simp only [estimateTokens, happ, hlen, hmlen, hmark]
    omega

/-- C4: for every positive file count `N` the per-file context budget equals
`max 10 (5000 / N)`, hence never falls below its floor of 10 tokens; the
derived per-file line allowance and the per-section and diff line shares never
fall below their own floors (5, 3 and 10 lines) either, no matter how large
`N` is. -/
theorem perFileBudget_floor (N : Nat) (h : 0 < N) :
    maxContextPerFile N = max 10 (5000 / N)
    ∧ 10 ≤ maxContextPerFile N
    ∧ 5 ≤ maxLinesPerFile N
    ∧ 3 ≤ linesPerSection N
    ∧ 10 ≤ maxDiffLines N :=
  ⟨rfl, Nat.le_max_left _ _, Nat.le_max_left _ _, Nat.le_max_left _ _,
    Nat.le_max_left _ _⟩

theorem perFileBudget_floor_witness :
    0 < 500
    ∧ (maxContextPerFile 500 = max 10 (5000 / 500)
      ∧ 10 ≤ maxContextPerFile 500
      ∧ 5 ≤ maxLinesPerFile 500
      ∧ 3 ≤ linesPerSection 500
      ∧ 10 ≤ maxDiffLines 500) :=
  ⟨by decide, perFileBudget_floor 500 (by decide)⟩

/-! ## `src/git.js` — the staged-file context builder

`getStagedFileContents` shells out to `file`, `stat`, `git show` and
`git diff`.  A `GitOracle` supplies the outcome of each external command
(`none` / `Except.error` meaning the command threw), and every attempted
command is recorded as a `GitCall`, so that claims about which calls are and
are not performed can be stated. -/

/-- One attempted external command of the context builder. -/
inductive GitCall where
  /-- `file -b <file>` (the binary probe). -/
  | probe (file : String)
  /-- `stat -c%s <file>`. -/
  | statC (file : String)
  /-- `stat -f%z <file>` (the fallback size probe). -/
  | statF (file : String)
  /-- `git show HEAD:<file>` (original content). -/
  | showHead (file : String)
  /-- `git show :<file>` (staged content). -/
  | showStaged (file : String)
  /-- `git diff --cached <file>` (per-file diff). -/
  | diffFile (file : String)
deriving DecidableEq, Repr

/-- Outcomes of the external commands the context builder may run.  `none`
(or `Except.error` for the staged-content read, whose exception message the
source interpolates into the context) models the command throwing. -/
structure GitOracle where
  /-- Stdout of `file -b <file>`; `none` when the command fails. -/
  probe : String → Option String
  /-- Parsed output of `stat -c%s <file>`. -/
  statC : String → Option Nat
  /-- Parsed output of `stat -f%z <file>`. -/
  statF : String → Option Nat
  /-- Content at `HEAD` (`git show HEAD:<file>`); `none` for a new file. -/
  showHead : String → Option String
  /-- Staged content (`git show :<file>`); the error carries the message. -/
  showStaged : String → Except String String
  /-- Per-file staged diff (`git diff --cached <file>`). -/
  diffFile : String → Option String

/-- The extension allow-list `isBinaryFile` falls back to when the `file`
probe fails (verbatim from `git.js`). -/
def binaryExtensions : List String :=
  [".exe", ".dll", ".so", ".dylib", ".bin", ".dat", ".zip", ".tar", ".gz", ".rar",
   ".7z", ".png", ".jpg", ".jpeg", ".gif", ".bmp", ".ico", ".svg", ".webp", ".tiff",
   ".pdf", ".doc", ".docx", ".xls", ".xlsx", ".ppt", ".pptx",
   ".mp3", ".mp4", ".avi", ".mov", ".wmv", ".flv", ".mkv",
   ".db", ".sqlite", ".sqlite3", ".mdb", ".accdb",
   ".jar", ".war", ".ear", ".class", ".pyc", ".o", ".a", ".lib",
   ".psd", ".ai", ".eps", ".indd", ".sketch", ".xcf", ".heic", ".apng",
   ".wav", ".aiff", ".flac", ".ogg", ".m4a", ".mid", ".midi",
   ".iso", ".img", ".vmdk", ".vhd", ".dmg", ".pkg", ".msi",
   ".swf", ".fla", ".3gp", ".webm", ".ts", ".m2ts", ".mts",
   ".arj", ".bz2", ".lz", ".lzma", ".xz", ".cab", ".rpm", ".deb", ".z", ".cpio",
   ".ttf", ".otf", ".woff", ".woff2", ".eot",
   ".cr2", ".nef", ".orf", ".sr2", ".raw", ".dng", ".rw2", ".pef", ".arw",
   ".ics", ".pst", ".ost", ".msg", ".eml"]

/-- `filePath.toLowerCase().split('.').pop()`: the lower-cased text after the
last dot (the whole name when there is no dot). -/
def lastExt (filePath : String) : String :=
  (strSplit (jsToLower filePath) '.').getLastD ""

/-- Does the `file -b` output indicate a binary file?
(`includes("binary") || includes("executable") || includes("image") ||
includes("archive")`). -/
def probeSuggestsBinary (fileType : String) : Bool :=
  strIncludes fileType "binary" || strIncludes fileType "executable" ||
  strIncludes fileType "image" || strIncludes fileType "archive"

/-- `GitManager.isBinaryFile`: consult the `file` probe; on probe failure fall
back to the extension allow-list. -/
def isBinaryFile (o : GitOracle) (filePath : String) : Bool :=
  match o.probe filePath with
  | some fileType => probeSuggestsBinary fileType
  | none => binaryExtensions.contains ("." ++ lastExt filePath)

/-- `const [status, ...fileParts] = line.split("\t")`;
`file = fileParts.join("\t")`. -/
def parseLine (line : String) : String × String :=
  match strSplit line '\t' with
  | [] => ("", "")
  | status :: fileParts => (status, strJoin fileParts '\t')

/-- The per-file section header `` `=== ${file} (${status}) ===\n` ``. -/
def fileHeader (file status : String) : String :=
  "=== " ++ file ++ " (" ++ status ++ ") ===\n"

/-- File size as the source computes it: `stat -c%s`, falling back to
`stat -f%z`, falling back to the hard-coded assumption `1000000`. -/
def getFileSize (o : GitOracle) (file : String) : Nat :=
  match o.statC file with
  | some n => n
  | none =>
    match o.statF file with
    | some n => n
    | none => 1000000

/-- The size-probe commands attempted for a file: `stat -c%s` always, the
`stat -f%z` fallback only when the first probe fails. -/
def sizeCalls (o : GitOracle) (file : String) : List GitCall :=
  GitCall.statC file ::
    (match o.statC file with
     | some _ => []
     | none => [GitCall.statF file])

/-- `(fileSize / 1024).toFixed(1)`: the size in KB with one decimal digit.
`fileSize / 1024` is exact in double precision (power-of-two divisor), and
`toFixed` rounds half away from zero, i.e. half up for the non-negative
values arising here. -/
def formatKB (fileSize : Nat) : String :=
  let tenths := (fileSize * 20 + 1024) / 2048
  toString (tenths / 10) ++ "." ++ toString (tenths % 10)

/-- The inline placeholder for a failed per-file diff command. -/
def UNABLE_DIFF : String := "[UNABLE TO GET DIFF]"

/-- Large-file diff truncation: keep the first `maxDiffLines` lines and
append the explicit marker. -/
def truncateDiffLines (totalFiles : Nat) (fileDiff : String) : String :=
  let diffLines := strSplit fileDiff '\n'
  let cap := maxDiffLines totalFiles
  if diffLines.length > cap then
    strJoin (diffLines.take cap) '\n'
      ++ "\n... (truncated, showing first " ++ toString cap ++ " lines of diff)"
  else fileDiff

/-- Small-file section truncation: keep the first `linesPerSection` lines and
append the explicit marker. -/
def truncateSectionLines (totalFiles : Nat) (content : String) : String :=
  let contentLines := strSplit content '\n'
  let cap := linesPerSection totalFiles
  if contentLines.length > cap then
    strJoin (contentLines.take cap) '\n'
      ++ "\n... (truncated, showing first " ++ toString cap ++ " lines)"
  else content

/-- One iteration of the `for` loop of `getStagedFileContents`: the text
appended to the context for this `name-status` line, and the external calls
attempted for it.  The `try`/`catch` of the source is modelled by the
`Except` result of the staged-content read — the only statement in the `try`
block whose failure is not already handled by an inner `try` or fallback. -/
def processLine (o : GitOracle) (totalFiles : Nat) (line : String) :
    String × List GitCall :=
  let status := (parseLine line).1
  let file := (parseLine line).2
  let header := fileHeader file status
  if status = "D" then
    (header ++ "[DELETED FILE]\n\n", [])
  else if isBinaryFile o file then
    (header ++ "[BINARY FILE - SKIPPED FOR CONTEXT]\n\n", [GitCall.probe file])
  else
    let fileSize := getFileSize o file
    let calls := GitCall.probe file :: sizeCalls o file
    if fileSize > 50000 then
      let fileDiff := (o.diffFile file).getD UNABLE_DIFF
      (header ++ "[LARGE FILE - DIFF ONLY]\n"
        ++ "File size: " ++ formatKB fileSize ++ "KB\n"
        ++ "DIFF:\n" ++ truncateDiffLines totalFiles fileDiff ++ "\n\n",
       calls ++ [GitCall.diffFile file])
    else
      match o.showStaged file with
      | Except.error msg =>
        (header ++ "[UNABLE TO READ CONTENT: " ++ msg ++ "]\n\n",
         calls ++ [GitCall.showHead file, GitCall.showStaged file])
      | Except.ok stagedContent =>
        let originalContent := (o.showHead file).getD "[NEW FILE - DID NOT EXIST BEFORE]"
        let fileDiff := (o.diffFile file).getD UNABLE_DIFF
        (header
          ++ "ORIGINAL FILE (before changes):\n"
          ++ truncateSectionLines totalFiles originalContent ++ "\n\n"
          ++ "STAGED FILE (after changes):\n"
          ++ truncateSectionLines totalFiles stagedContent ++ "\n\n"
          ++ "DETAILED DIFF:\n"
          ++ truncateSectionLines totalFiles fileDiff ++ "\n\n",
         calls ++ [GitCall.showHead file, GitCall.showStaged file,
           GitCall.diffFile file])

/-- Does the mid-loop 5000-token budget check run for this `name-status`
line?  In the source the check stands inside the `try` block, after the
large-file or small-file section: it is skipped by the deleted-file
`continue` (before the `try`), by the binary-file `continue`, and — when the
staged-content read throws — by the jump to the `catch`, which appends the
error marker and falls through to the next iteration with no check. -/
def midLoopCheckRuns (o : GitOracle) (line : String) : Bool :=
  let status := (parseLine line).1
  let file := (parseLine line).2
  if status = "D" then false
  else if isBinaryFile o file then false
  else if getFileSize o file > 50000 then true
  else
    match o.showStaged file with
    | Except.ok _ => true
    | Except.error _ => false

/-- The `for` loop of `getStagedFileContents`: append each file section;
when the iteration reaches the mid-loop budget check (see
`midLoopCheckRuns`) and the running context estimates to more than 5000
tokens, apply `limitContextSize` and stop (the source's `break`); otherwise
continue with the next line. -/
def contextLoop (o : GitOracle) (tokenLimit : Nat) (totalFiles : Nat) :
    List String → String → String × List GitCall
  | [], context => (context, [])
  | line :: rest, context =>
    let step := processLine o totalFiles line
    let context2 := context ++ step.1
    if midLoopCheckRuns o line ∧ estimateTokens context2 > 5000 then
      (limitContextSize context2 tokenLimit, step.2)
    else
      let next := contextLoop o tokenLimit totalFiles rest context2
      (next.1, step.2 ++ next.2)

/-- `GitManager.getStagedFileContents`: split the `name-status` text into
non-blank lines, process each, and apply the final `limitContextSize` pass to
the accumulated context. -/
def getStagedFileContents (o : GitOracle) (configLimit : Option Nat)
    (changes : String) : String :=
  let lines := (strSplit changes '\n').filter fun line => !(jsTrim line).isEmpty
  let totalFiles := lines.length
  let tokenLimit := resolveContextLimit configLimit
  limitContextSize
    (contextLoop o tokenLimit totalFiles lines "DETAILED FILE ANALYSIS:\n\n").1
    tokenLimit

/-! ## Theorems about the context builder -/

/-- C5: a `name-status` line whose status is `D` produces exactly the header
line followed by the literal `[DELETED FILE]` placeholder, and no external
call at all — no original-content, staged-content or per-file-diff fetch. -/
theorem deleted_file_placeholder (o : GitOracle) (totalFiles : Nat)
    (line : String) (h : (parseLine line).1 = "D") :
    processLine o totalFiles line
      = (fileHeader (parseLine line).2 "D" ++ "[DELETED FILE]\n\n", []) := by
  simp [processLine, h]

def oracleDeleted : GitOracle :=
  ⟨fun _ => some "ASCII text", fun _ => some 12, fun _ => some 12,
   fun _ => some "old", fun _ => Except.ok "new", fun _ => some "diff"⟩

theorem deleted_file_placeholder_witness :
    (parseLine "D\tremoved.txt").1 = "D"
    ∧ processLine oracleDeleted 1 "D\tremoved.txt"
        = (fileHeader (parseLine "D\tremoved.txt").2 "D" ++ "[DELETED FILE]\n\n", []) :=
  ⟨by decide, deleted_file_placeholder oracleDeleted 1 "D\tremoved.txt" (by decide)⟩

/-- C6: a non-deleted file classified as binary — by the `file` probe, or by
the extension allow-list when the probe fails — produces exactly the header
line followed by the `[BINARY FILE - SKIPPED FOR CONTEXT]` placeholder, and
the only external call attempted for it is the probe itself: no content
retrieval of any kind. -/
theorem binary_file_placeholder (o : GitOracle) (totalFiles : Nat)
    (line : String) (h1 : (parseLine line).1 ≠ "D")
    (h2 : isBinaryFile o (parseLine line).2 = true) :
    processLine o totalFiles line
      = (fileHeader (parseLine line).2 (parseLine line).1
          ++ "[BINARY FILE - SKIPPED FOR CONTEXT]\n\n",
         [GitCall.probe (parseLine line).2]) := by
  simp [processLine, h1, h2]

def oracleProbeFails : GitOracle :=
  ⟨fun _ => none, fun _ => some 12, fun _ => some 12,
   fun _ => some "old", fun _ => Except.ok "new", fun _ => some "diff"⟩

theorem binary_file_placeholder_witness :
    ((parseLine "M\tlogo.PNG").1 ≠ "D"
      ∧ isBinaryFile oracleProbeFails (parseLine "M\tlogo.PNG").2 = true)
    ∧ processLine oracleProbeFails 1 "M\tlogo.PNG"
        = (fileHeader (parseLine "M\tlogo.PNG").2 (parseLine "M\tlogo.PNG").1
            ++ "[BINARY FILE - SKIPPED FOR CONTEXT]\n\n",
           [GitCall.probe (parseLine "M\tlogo.PNG").2]) :=
  ⟨⟨by decide, by decide⟩,
   binary_file_placeholder oracleProbeFails 1 "M\tlogo.PNG" (by decide) (by decide)⟩

/-- C7: when the staged-content read of a non-deleted, non-binary, small file
throws, the file's section is exactly the header followed by the inline
`[UNABLE TO READ CONTENT: <message>]` marker, and the loop continues with
the remaining files unconditionally — the mid-loop budget check stands
inside the source's `try` block, so the `catch` path never breaks, whatever
the accumulated size.  The failure is never fatal: `processLine` and
`contextLoop` are total functions. -/
theorem unreadable_file_marker (o : GitOracle) (totalFiles : Nat)
    (line msg : String) (h1 : (parseLine line).1 ≠ "D")
    (h2 : isBinaryFile o (parseLine line).2 = false)
    (h3 : getFileSize o (parseLine line).2 ≤ 50000)
    (h4 : o.showStaged (parseLine line).2 = Except.error msg) :
    (processLine o totalFiles line).1
      = fileHeader (parseLine line).2 (parseLine line).1
        ++ "[UNABLE TO READ CONTENT: " ++ msg ++ "]\n\n"
    ∧ ∀ (tokenLimit : Nat) (rest : List String) (context : String),
        contextLoop o tokenLimit totalFiles (line :: rest) context
          = ((contextLoop o tokenLimit totalFiles rest
              (context ++ (processLine o totalFiles line).1)).1,
             (processLine o totalFiles line).2
              ++ (contextLoop o tokenLimit totalFiles rest
                  (context ++ (processLine o totalFiles line).1)).2) := by
  have hsize : ¬ (getFileSize o (parseLine line).2 > 50000) := Nat.not_lt.mpr h3
  have hmid : midLoopCheckRuns o line = false := by
    simp [midLoopCheckRuns, h1, h2, hsize, h4]
  constructor
  · simp [processLine, h1, h2, hsize, h4]
  · intro tokenLimit rest context
    simp only [contextLoop, hmid, Bool.false_eq_true, false_and, if_false]

def oracleUnreadable : GitOracle :=
  ⟨fun _ => some "ASCII text", fun _ => some 12, fun _ => some 12,
   fun _ => none, fun _ => Except.error "fatal: path not in the index",
   fun _ => some "diff"⟩

theorem unreadable_file_marker_witness :
    ((parseLine "M\tgone.txt").1 ≠ "D"
      ∧ isBinaryFile oracleUnreadable (parseLine "M\tgone.txt").2 = false
      ∧ getFileSize oracleUnreadable (parseLine "M\tgone.txt").2 ≤ 50000
      ∧ oracleUnreadable.showStaged (parseLine "M\tgone.txt").2
          = Except.error "fatal: path not in the index")
    ∧ ((processLine oracleUnreadable 1 "M\tgone.txt").1
        = fileHeader (parseLine "M\tgone.txt").2 (parseLine "M\tgone.txt").1
          ++ "[UNABLE TO READ CONTENT: " ++ "fatal: path not in the index" ++ "]\n\n"
      ∧ ∀ (tokenLimit : Nat) (rest : List String) (context : String),
          contextLoop oracleUnreadable tokenLimit 1 ("M\tgone.txt" :: rest) context
            = ((contextLoop oracleUnreadable tokenLimit 1 rest
                (context ++ (processLine oracleUnreadable 1 "M\tgone.txt").1)).1,
               (processLine oracleUnreadable 1 "M\tgone.txt").2
                ++ (contextLoop oracleUnreadable tokenLimit 1 rest
                    (context ++ (processLine oracleUnreadable 1 "M\tgone.txt").1)).2)) :=
  ⟨⟨by decide, by decide, by decide, rfl⟩,
   unreadable_file_marker oracleUnreadable 1 "M\tgone.txt"
     "fatal: path not in the index" (by decide) (by decide) (by decide) rfl⟩

/-- C9: when both size probes fail for a non-deleted, non-binary file, the
builder assumes a size of 1,000,000 bytes, which exceeds the 50,000-byte
threshold, so the file takes the large-file path: its section carries only
the line-capped diff, and neither the original-content nor the
staged-content command is ever attempted for it. -/
theorem stat_failure_treated_large (o : GitOracle) (totalFiles : Nat)
    (line : String) (h1 : (parseLine line).1 ≠ "D")
    (h2 : isBinaryFile o (parseLine line).2 = false)
    (h3 : o.statC (parseLine line).2 = none)
    (h4 : o.statF (parseLine line).2 = none) :
    getFileSize o (parseLine line).2 = 1000000
    ∧ processLine o totalFiles line
        = (fileHeader (parseLine line).2 (parseLine line).1
            ++ "[LARGE FILE - DIFF ONLY]\n"
            ++ "File size: " ++ formatKB 1000000 ++ "KB\n"
            ++ "DIFF:\n"
            ++ truncateDiffLines totalFiles
                ((o.diffFile (parseLine line).2).getD UNABLE_DIFF)
            ++ "\n\n",
           [GitCall.probe (parseLine line).2, GitCall.statC (parseLine line).2,
            GitCall.statF (parseLine line).2, GitCall.diffFile (parseLine line).2])
    ∧ GitCall.showHead (parseLine line).2 ∉ (processLine o totalFiles line).2
    ∧ GitCall.showStaged (parseLine line).2 ∉ (processLine o totalFiles line).2 := by
  have hsize : getFileSize o (parseLine line).2 = 1000000 := by
    simp [getFileSize, h3, h4]
  have hbig : getFileSize o (parseLine line).2 > 50000 := by omega
  have hproc : processLine o totalFiles line
      = (fileHeader (parseLine line).2 (parseLine line).1
          ++ "[LARGE FILE - DIFF ONLY]\n"
          ++ "File size: " ++ formatKB 1000000 ++ "KB\n"
          ++ "DIFF:\n"
          ++ truncateDiffLines totalFiles
              ((o.diffFile (parseLine line).2).getD UNABLE_DIFF)
          ++ "\n\n",
         [GitCall.probe (parseLine line).2, GitCall.statC (parseLine line).2,
          GitCall.statF (parseLine line).2, GitCall.diffFile (parseLine line).2]) := by
    simp [processLine, h1, h2, hbig, hsize, sizeCalls, h3]
  refine ⟨hsize, hproc, ?_, ?_⟩ <;> rw [hproc] <;> simp

def oracleNoStat : GitOracle :=
  ⟨fun _ => some "ASCII text", fun _ => none, fun _ => none,
   fun _ => some "old", fun _ => Except.ok "new", fun _ => some "diff"⟩

theorem stat_failure_treated_large_witness :
    ((parseLine "M\thuge.txt").1 ≠ "D"
      ∧ isBinaryFile oracleNoStat (parseLine "M\thuge.txt").2 = false
      ∧ oracleNoStat.statC (parseLine "M\thuge.txt").2 = none
      ∧ oracleNoStat.statF (parseLine "M\thuge.txt").2 = none)
    ∧ (getFileSize oracleNoStat (parseLine "M\thuge.txt").2 = 1000000
      ∧ processLine oracleNoStat 1 "M\thuge.txt"
          = (fileHeader (parseLine "M\thuge.txt").2 (parseLine "M\thuge.txt").1
              ++ "[LARGE FILE - DIFF ONLY]\n"
              ++ "File size: " ++ formatKB 1000000 ++ "KB\n"
              ++ "DIFF:\n"
              ++ truncateDiffLines 1
                  ((oracleNoStat.diffFile (parseLine "M\thuge.txt").2).getD UNABLE_DIFF)
              ++ "\n\n",
             [GitCall.probe (parseLine "M\thuge.txt").2,
              GitCall.statC (parseLine "M\thuge.txt").2,
              GitCall.statF (parseLine "M\thuge.txt").2,
              GitCall.diffFile (parseLine "M\thuge.txt").2])
      ∧ GitCall.showHead (parseLine "M\thuge.txt").2
          ∉ (processLine oracleNoStat 1 "M\thuge.txt").2
      ∧ GitCall.showStaged (parseLine "M\thuge.txt").2
          ∉ (processLine oracleNoStat 1 "M\thuge.txt").2) :=
  ⟨⟨by decide, by decide, by decide, by decide⟩,
   stat_failure_treated_large oracleNoStat 1 "M\thuge.txt"
     (by decide) (by decide) (by decide) (by decide)⟩


/-! ## `src/ai.js` — the prompt builders and the minimal-prompt fallback

The template text below is transcribed verbatim from the template literals of
`getMinimalPrompt` and `getCommitPrompt` in `src/ai.js`, split at the
interpolation points (`${changes}`, `${diff}`, the `useGitmoji` conditional
and the appended custom-prompt / user-feedback blocks). -/

def promptSystem : String :=
  "You are a git commit message generator. Create conventional commit messages."

def promptUserA : String :=
  "\nGenerate a commit message for these changes:\n\n## File changes:\n<file_changes>\n"

def promptUserB : String :=
  "\n</file_changes>\n\n## Diff:\n<diff>\n"

def minTail1 : String :=
  "\n</diff>\n\n## Analysis Instructions:\n1. **Examine the file changes** - understand what files were modified, added, or deleted\n2. **Study the diff** - see exactly what lines were added, removed, or modified\n3. **Identify the type of change** - determine if it's a new feature, bug fix, refactoring, etc.\n4. **Determine the scope** - identify which component or module is affected\n5. **Write a precise commit message** - be specific about what changed and why\n\n## Format:\n<type>(<scope>): <subject>\n<BLANK LINE>\n<body>\n<BLANK LINE>\n<footer>\n\nIMPORTANT:\n- Type must be one of the following with their meanings:\n  * build: Changes that affect the build system or external dependencies (example scopes: gulp, broccoli, npm)\n  * ci: Continuous integration related, changes to our CI configuration files and scripts (example scopes: Circle, BrowserStack, SauceLabs)\n  * docs: Documentation only changes, update/create documentation\n  * feat: A new feature, introduce a new feature to the codebase\n  * fix: A bug fix in codebase, fix a bug in the codebase\n  * perf: A code change that improves performance\n  * refactor: A code change that neither fixes a bug nor adds a feature, refactor a specific section of the codebase\n  * style: Changes that do not affect the meaning of the code (white-space, formatting, missing semi-colons, etc)\n  * test: Adding missing tests or correcting existing tests, add or update code related to testing\n  * chore: Routine tasks, maintenance, or tooling changes\n"

def gitmojiBlock : String :=
  "\n- Gitmoji: Use emoji prefix for commit types. Common types:\n  * feat: âœ¨ (new features)\n  * fix: ğŸ› (bug fixes)\n  * docs: ğŸ“š (documentation)\n  * style: ğŸ’„ (cosmetic/UI changes)\n  * refactor: ğŸ”¨ (code refactoring)\n  * perf: ğŸ (performance improvements)\n  * test: ğŸš¨ (tests)\n  * chore: ğŸ”§ (configuration files)\n  * build: ğŸ“¦ (package/build files)\n  * ci: ğŸ‘· (CI/CD)\n  * hotfix: ğŸš‘ (critical fixes)\n  * security: ğŸ”’ (security fixes)\n  * breaking: ğŸ’¥ (breaking changes)\n  * deps_add: â• (add dependencies)\n  * deps_remove: â– (remove dependencies)\n  * upgrade: â¬†ï¸ (upgrade dependencies)\n  * downgrade: â¬‡ï¸ (downgrade dependencies)\n  * move: ğŸšš (move/rename files)\n  * deploy: ğŸš€ (deployment)\n  * docker: ğŸ³ (Docker changes)\n  * database: ğŸ—ƒï¸ (database changes)\n  * auth: ğŸ›‚ (authorization/permissions)\n  * accessibility: â™¿ (accessibility improvements)\n  * i18n: ğŸŒ (internationalization)\n  * analytics: ğŸ“ˆ (analytics/tracking)\n  * architecture: ğŸ—ï¸ (architectural changes)\n  * infrastructure: ğŸ§± (infrastructure)\n  * dx: ğŸ§‘â€ğŸ’» (developer experience)\n  * review: ğŸ‘Œ (code review changes)\n  * revert: âªï¸ (revert changes)\n  * remove: ğŸ”¥ (remove code/files)\n  * format: ğŸ¨ (improve format/structure)\n  * general: âš¡ (general updates)\n  * initial: ğŸ‰ (initial commit)\n  * release: ğŸ”– (version tags)\n- Format with Gitmoji: <emoji> <type>(<scope>): <subject>"

def minTail2 : String :=
  "\n- Subject: max 50 characters, imperative mood, no period, first character lowercase\n- Body formatting:\n  * Lists: use \"- \" prefix for bullet points\n  * Paragraphs: no prefix, just plain text\n  * Explain what and why, not how\n  * Blank line between subject and body\n- Scope: max 3 words\n- For minor changes: use 'fix' instead of 'feat'\n- Do not wrap your response in triple backticks\n- Response should be the commit message only, no explanations"

def richTail1 : String :=
  "\n</diff>\n\n## Analysis Instructions:\n1. **Examine the file changes** - understand what files were modified, added, or deleted\n2. **Study the diff** - see exactly what lines were added, removed, or modified\n3. **Review the detailed context** - compare before/after file contents to understand the full scope of changes\n4. **Identify the type of change** - determine if it's a new feature, bug fix, refactoring, etc.\n5. **Determine the scope** - identify which component or module is affected\n6. **Write a precise commit message** - be specific about what changed and why\n\n## Format:\n<type>(<scope>): <subject>\n<BLANK LINE>\n<body>\n<BLANK LINE>\n<footer>\n\nIMPORTANT:\n- Type must be one of the following with their meanings:\n  * build: Changes that affect the build system or external dependencies (example scopes: gulp, broccoli, npm)\n  * ci: Continuous integration related, changes to our CI configuration files and scripts (example scopes: Circle, BrowserStack, SauceLabs)\n  * docs: Documentation only changes, update/create documentation\n  * feat: A new feature, introduce a new feature to the codebase\n  * fix: A bug fix in codebase, fix a bug in the codebase\n  * perf: A code change that improves performance\n  * refactor: A code change that neither fixes a bug nor adds a feature, refactor a specific section of the codebase\n  * style: Changes that do not affect the meaning of the code (white-space, formatting, missing semi-colons, etc)\n  * test: Adding missing tests or correcting existing tests, add or update code related to testing\n  * chore: Routine tasks, maintenance, or tooling changes\n"

def richTail2 : String :=
  "\n- Subject: max 50 characters, imperative mood, no period, first character lowercase\n- Body formatting:\n  * Lists: use \"- \" prefix for bullet points\n  * Paragraphs: no prefix, just plain text\n  * Explain what and why, not how\n  * Blank line between subject and body\n- Scope: max 3 words\n- For minor changes: use 'fix' instead of 'feat'\n- Do not wrap your response in triple backticks\n- Response should be the commit message only, no explanations"

def ctxPre : String :=
  "\n\n## Detailed File Analysis:\n"

def ctxPost : String :=
  "\n\nUse this detailed analysis to understand:\n- What the original files looked like before changes\n- What the files look like after changes  \n- The specific differences between before and after\n- The full context of what was modified, added, or removed"

def customPre : String :=
  "\n\n## Additional requirements:\n"

def feedbackPre : String :=
  "\n\n## User feedback:\n\""

def feedbackPost : String :=
  "\"\n\nPlease consider this feedback when generating the commit message."


/-- The configuration fields `AIService` consults when building prompts. -/
structure AIConfig where
  /-- `config.useGitmoji`. -/
  useGitmoji : Bool
  /-- `config.customPrompt`. -/
  customPrompt : String
  /-- `config.contextSizeLimit` (`none` when absent). -/
  contextSizeLimit : Option Nat

/-- System and user prompt, as returned by the prompt builders. -/
structure Prompts where
  /-- The system prompt. -/
  system : String
  /-- The user prompt. -/
  user : String
deriving DecidableEq, Repr

/-- The `useGitmoji` conditional segment shared by both templates. -/
def gitmojiSegment (useGitmoji : Bool) : String :=
  if useGitmoji then gitmojiBlock else ""

/-- `if (this.config.customPrompt.trim()) userPrompt += ...`. -/
def customSegment (cfg : AIConfig) : String :=
  if !(jsTrim cfg.customPrompt).isEmpty then customPre ++ cfg.customPrompt else ""

/-- `if (userFeedback && userFeedback.trim()) userPrompt += ...`. -/
def feedbackSegment (userFeedback : String) : String :=
  if !userFeedback.isEmpty && !(jsTrim userFeedback).isEmpty then
    feedbackPre ++ userFeedback ++ feedbackPost
  else ""

/-- `if (context) userPrompt += ...` (rich prompt only). -/
def contextSegment (context : String) : String :=
  if !context.isEmpty then ctxPre ++ context ++ ctxPost else ""

/-- `AIService.getMinimalPrompt`: file-status list and full diff only — the
template mentions no per-file content and takes no context argument. -/
def getMinimalPrompt (cfg : AIConfig) (changes diff userFeedback : String) :
    Prompts :=
  ⟨promptSystem,
   promptUserA ++ changes ++ promptUserB ++ diff
     ++ minTail1 ++ gitmojiSegment cfg.useGitmoji ++ minTail2
     ++ customSegment cfg ++ feedbackSegment userFeedback⟩

/-- `AIService.getCommitPrompt`: the rich prompt, which attaches the detailed
file-analysis context when it is non-empty. -/
def getCommitPrompt (cfg : AIConfig) (changes diff context userFeedback : String) :
    Prompts :=
  ⟨promptSystem,
   promptUserA ++ changes ++ promptUserB ++ diff
     ++ richTail1 ++ gitmojiSegment cfg.useGitmoji ++ richTail2
     ++ contextSegment context
     ++ customSegment cfg ++ feedbackSegment userFeedback⟩

/-- `AIService.estimateRequestTokens`: estimated token count of the whole
rich prompt (system plus user text). -/
def estimateRequestTokens (cfg : AIConfig)
    (changes diff context userFeedback : String) : Nat :=
  let prompts := getCommitPrompt cfg changes diff context userFeedback
  estimateTokens (prompts.system ++ prompts.user)

/-- The outer token ceiling of `generateCommitMessage`:
`this.config.contextSizeLimit || 6666`. -/
def resolveRequestLimit (cfg : AIConfig) : Nat :=
  jsOrDefault cfg.contextSizeLimit 6666

/-- The prompt-selection step of `AIService.generateCommitMessage`: when the
estimated token count of the rich prompt exceeds the outer ceiling, fall back
to the minimal prompt, otherwise keep the rich prompt. -/
def generateCommitMessagePrompts (cfg : AIConfig)
    (changes diff context userFeedback : String) : Prompts :=
  if estimateRequestTokens cfg changes diff context userFeedback
      > resolveRequestLimit cfg then
    getMinimalPrompt cfg changes diff userFeedback
  else
    getCommitPrompt cfg changes diff context userFeedback

/-- Text fragments that only the per-file context sections of
`getStagedFileContents` produce: original/staged content headers and the
per-file truncation bookkeeping marker. -/
def perFileSectionMarkers : List String :=
  ["ORIGINAL FILE", "STAGED FILE", "... (truncated"]

/-- Does `s` contain any per-file context-section fragment? -/
def hasPerFileMarker (s : String) : Bool :=
  perFileSectionMarkers.any fun m => strIncludes s m

set_option maxRecDepth 9000 in
/-- C2: whenever the estimated token count of the assembled rich prompt
exceeds the outer ceiling (`config.contextSizeLimit`, defaulting to 6666),
`generateCommitMessage` sends the minimal prompt; that minimal prompt is the
fixed template around the file-status list and the full diff only (plus the
configured custom-prompt and feedback blocks) — it takes no context argument,
and its fixed template contains no per-file original/staged content section
and no per-file truncation bookkeeping, whether or not Gitmoji is enabled. -/
theorem generateCommitMessage_minimal_fallback (cfg : AIConfig)
    (changes diff context userFeedback : String)
    (h : estimateRequestTokens cfg changes diff context userFeedback
        > resolveRequestLimit cfg) :
    generateCommitMessagePrompts cfg changes diff context userFeedback
        = getMinimalPrompt cfg changes diff userFeedback
    ∧ (getMinimalPrompt cfg changes diff userFeedback).user
        = promptUserA ++ changes ++ promptUserB ++ diff
          ++ minTail1 ++ gitmojiSegment cfg.useGitmoji ++ minTail2
          ++ customSegment cfg ++ feedbackSegment userFeedback
    ∧ (∀ useGitmoji : Bool,
        hasPerFileMarker
          (getMinimalPrompt ⟨useGitmoji, "", none⟩ "" "" "").user = false) := by
  refine ⟨by simp [generateCommitMessagePrompts, h], rfl, ?_⟩
  intro useGitmoji
  cases useGitmoji
  · decide
  · decide

def configTenTokens : AIConfig := ⟨false, "", some 10⟩

set_option maxRecDepth 16000 in
theorem rich_prompt_estimate_exceeds_ten :
    estimateRequestTokens configTenTokens "M\tauth.js" "+x" "CTX" ""
      > resolveRequestLimit configTenTokens := by
  have hsys : promptSystem.length = 76 := by decide
  have hA : promptUserA.length = 79 := by decide
  have hB : promptUserB.length = 34 := by decide
  have hR1 : richTail1.length = 1597 := by decide
  have hR2 : richTail2.length = 445 := by decide
  have hcs : customSegment configTenTokens = "" := by decide
  have hfs : feedbackSegment "" = "" := by decide
  have hgm : gitmojiSegment configTenTokens.useGitmoji = "" := rfl
  have hlim : resolveRequestLimit configTenTokens = 10 := by decide
  have hctx : contextSegment "CTX" = ctxPre ++ "CTX" ++ ctxPost := by decide
  have hcp : ctxPre.length = 29 := by decide
  have hcq : ctxPost.length = 250 := by decide
  have hch : ("M\tauth.js" : String).length = 9 := by decide
  have hdf : ("+x" : String).length = 2 := by decide
  have hcx : ("CTX" : String).length = 3 := by decide
  have hemp : ("" : String).length = 0 := by decide
  simp only [estimateRequestTokens, getCommitPrompt, estimateTokens, hlim,
    hcs, hfs, hgm, hctx, string_length_append, hsys, hA, hB, hR1, hR2, hcp,
    hcq, hch, hdf, hcx, hemp]
  norm_num

theorem generateCommitMessage_minimal_fallback_witness :
    estimateRequestTokens configTenTokens "M\tauth.js" "+x" "CTX" ""
        > resolveRequestLimit configTenTokens
    ∧ generateCommitMessagePrompts configTenTokens "M\tauth.js" "+x" "CTX" ""
        = getMinimalPrompt configTenTokens "M\tauth.js" "+x" "" :=
  ⟨rich_prompt_estimate_exceeds_ten,
   (generateCommitMessage_minimal_fallback configTenTokens
     "M\tauth.js" "+x" "CTX" "" rich_prompt_estimate_exceeds_ten).1⟩


/-! ## `src/ai.js` — the markdown sanitizer `cleanCommitMessage`

The sanitizer is a chain of JavaScript regex replacements.  Each replacement
is modelled by an explicit left-to-right scanner over the character list,
with the `/m` anchors tracked by an `atLineStart` flag and `/g` modelled by
continuing the scan after each match, exactly as the regex engine does.  The
scanners take a fuel argument (each scan step consumes at least one input
character, so fuel equal to the input length is always sufficient, and the
top-level pipeline passes exactly that); exhausted fuel returns the rest of
the input unchanged. -/

/-- JavaScript line terminators (`\n`, `\r`, U+2028, U+2029): the characters
`^`/`$` anchor around under `/m`, and the characters `.` does not match. -/
def isLineTerm (c : Char) : Bool :=
  c = '\n' || c = '\r' || c.val = 0x2028 || c.val = 0x2029

/-- The JavaScript word class `\w` (`[A-Za-z0-9_]`). -/
def isWordChar (c : Char) : Bool :=
  c.isAlpha || c.isDigit || c = '_'

/-- Does `$` (under `/m`) match before this remainder: end of input or a line
terminator next? -/
def endOfLine : List Char → Bool
  | [] => true
  | c :: _ => isLineTerm c

/-- Do the next three characters spell ``` ? -/
def ticks3 (l : List Char) : Bool :=
  decide (l.take 3 = ['`', '`', '`'])

/-- Do the next two characters spell two backticks? -/
def ticks2 (l : List Char) : Bool :=
  decide (l.take 2 = ['`', '`'])

/-- Is the first character JavaScript whitespace? -/
def headIsJsSpace : List Char → Bool
  | [] => false
  | c :: _ => isJsSpace c

/-- Is the last character a line terminator? -/
def lastIsLineTerm (l : List Char) : Bool :=
  match l.getLast? with
  | some c => isLineTerm c
  | none => false

/-- `cleaned.replace(/^```[\w]*\n?/gm, "")`: at a line start, strip three
backticks, a run of word characters and an optional newline. -/
def fenceOpenPass : Nat → Bool → List Char → List Char
  | _, _, [] => []
  | 0, _, l => l
  | fuel + 1, atLineStart, c :: rest =>
    if atLineStart && ticks3 (c :: rest) then
      match (rest.drop 2).dropWhile isWordChar with
      | '\n' :: rest2 => fenceOpenPass fuel true rest2
      | rest2 => fenceOpenPass fuel false rest2
    else c :: fenceOpenPass fuel (isLineTerm c) rest

/-- `cleaned.replace(/\n?```$/gm, "")`: strip an optional newline and three
backticks standing at an end of line. -/
def fenceClosePass : Nat → List Char → List Char
  | _, [] => []
  | 0, l => l
  | fuel + 1, c :: rest =>
    if c == '\n' && ticks3 rest && endOfLine (rest.drop 3) then
      fenceClosePass fuel (rest.drop 3)
    else if c == '`' && ticks2 rest && endOfLine (rest.drop 2) then
      fenceClosePass fuel (rest.drop 2)
    else c :: fenceClosePass fuel rest

/-- `cleaned.replace(/^```$/gm, "")`: strip a line that is exactly three
backticks. -/
def fenceLinePass : Nat → Bool → List Char → List Char
  | _, _, [] => []
  | 0, _, l => l
  | fuel + 1, atLineStart, c :: rest =>
    if atLineStart && c == '`' && ticks2 rest && endOfLine (rest.drop 2) then
      fenceLinePass fuel false (rest.drop 2)
    else c :: fenceLinePass fuel (isLineTerm c) rest

/-- The lazy group of `/\*\*(.*?)\*\*/`: the characters before the nearest
`**`, failing on a line terminator (`.` does not match one). -/
def findBoldClose : List Char → Option (List Char × List Char)
  | [] => none
  | c :: rest =>
    if c = '*' && rest.head? == some '*' then some ([], rest.tail)
    else if isLineTerm c then none
    else (findBoldClose rest).map fun p => (c :: p.1, p.2)

/-- `cleaned.replace(/\*\*(.*?)\*\*/g, "$1")`. -/
def boldPass : Nat → List Char → List Char
  | _, [] => []
  | 0, l => l
  | fuel + 1, c :: rest =>
    if c == '*' && rest.head? == some '*' then
      match findBoldClose rest.tail with
      | some (grp, rest2) => grp ++ boldPass fuel rest2
      | none => '*' :: boldPass fuel rest
    else c :: boldPass fuel rest

/-- The lazy group of `/\*(.*?)\*/`: the characters before the nearest `*`,
failing on a line terminator. -/
def findItalicClose : List Char → Option (List Char × List Char)
  | [] => none
  | c :: rest =>
    if c = '*' then some ([], rest)
    else if isLineTerm c then none
    else (findItalicClose rest).map fun p => (c :: p.1, p.2)

/-- `cleaned.replace(/\*(.*?)\*/g, "$1")`. -/
def italicPass : Nat → List Char → List Char
  | _, [] => []
  | 0, l => l
  | fuel + 1, c :: rest =>
    if c == '*' then
      match findItalicClose rest with
      | some (grp, rest2) => grp ++ italicPass fuel rest2
      | none => '*' :: italicPass fuel rest
    else c :: italicPass fuel rest

/-- The group of `` /`([^`]*)`/ ``: the characters before the next backtick
(`[^`]` does match line terminators). -/
def findCodeClose : List Char → Option (List Char × List Char)
  | [] => none
  | c :: rest =>
    if c = '`' then some ([], rest)
    else (findCodeClose rest).map fun p => (c :: p.1, p.2)

/-- ``cleaned.replace(/`([^`]*)`/g, "$1")``. -/
def inlineCodePass : Nat → List Char → List Char
  | _, [] => []
  | 0, l => l
  | fuel + 1, c :: rest =>
    if c == '`' then
      match findCodeClose rest with
      | some (grp, rest2) => grp ++ inlineCodePass fuel rest2
      | none => '`' :: inlineCodePass fuel rest
    else c :: inlineCodePass fuel rest

/-- `cleaned.replace(/^#{1,6}\s+/gm, "")`: at a line start, a run of one to
six hashes followed by whitespace is stripped together with the whole
(greedy) whitespace run; a run of seven or more hashes never matches, since
the greedy `#{1,6}` then always faces a further hash.  The stripped
whitespace may end in a line terminator, in which case the scan resumes at a
line start. -/
def headingPass : Nat → Bool → List Char → List Char
  | _, _, [] => []
  | 0, _, l => l
  | fuel + 1, atLineStart, c :: rest =>
    if atLineStart && c == '#' then
      let hashes := 1 + (rest.takeWhile fun d => d == '#').length
      let after := rest.dropWhile fun d => d == '#'
      if hashes ≤ 6 ∧ headIsJsSpace after then
        headingPass fuel (lastIsLineTerm (after.takeWhile isJsSpace))
          (after.dropWhile isJsSpace)
      else c :: headingPass fuel false rest
    else c :: headingPass fuel (isLineTerm c) rest

/-- `fenceOpenPass` with sufficient fuel (the input length). -/
def runFenceOpen (l : List Char) : List Char :=
  fenceOpenPass l.length true l

/-- `fenceClosePass` with sufficient fuel. -/
def runFenceClose (l : List Char) : List Char :=
  fenceClosePass l.length l

/-- `fenceLinePass` with sufficient fuel. -/
def runFenceLine (l : List Char) : List Char :=
  fenceLinePass l.length true l

/-- `boldPass` with sufficient fuel. -/
def runBold (l : List Char) : List Char :=
  boldPass l.length l

/-- `italicPass` with sufficient fuel. -/
def runItalic (l : List Char) : List Char :=
  italicPass l.length l

/-- `inlineCodePass` with sufficient fuel. -/
def runInlineCode (l : List Char) : List Char :=
  inlineCodePass l.length l

/-- `headingPass` with sufficient fuel. -/
def runHeading (l : List Char) : List Char :=
  headingPass l.length true l

/-- `AIService.cleanCommitMessage` on a character list: trim, strip code-block
markers, bold, italic, inline code and headers, trim again, then trim each
line, drop blank lines and rejoin with newlines. -/
def cleanCommitMessageList (l : List Char) : List Char :=
  let c7 := runHeading (runInlineCode (runItalic (runBold
    (runFenceLine (runFenceClose (runFenceOpen (jsTrimList l)))))))
  let cleanedLines :=
    ((splitOnChar '\n' (jsTrimList c7)).map jsTrimList).filter fun ln => !ln.isEmpty
  joinWithChar '\n' cleanedLines

/-- `AIService.cleanCommitMessage`. -/
def cleanCommitMessage (message : String) : String :=
  ⟨cleanCommitMessageList message.data⟩

/-- C3 counterexample: the sanitizer is not idempotent.  On `"# # x"` one
application strips only the first `#` (the heading regex consumes `"# "` and
the scan resumes mid-line), giving `"# x"`; a second application strips the
now line-initial `"# "` as well, giving `"x"`. -/
theorem cleanCommitMessage_not_idempotent :
    cleanCommitMessage (cleanCommitMessage "# # x") ≠ cleanCommitMessage "# # x" := by
  decide


/-! ## Idempotence of the sanitizer on marker-free input

The sanitizer is not idempotent in general
(`cleanCommitMessage_not_idempotent`), but it is on input free of the three
markdown marker characters `#`, `*` and `` ` `` that its regex passes act on.
The lemmas below show each pass is the identity on such input, that trimming
is idempotent, and that the final trim/split/filter/join normalisation is
idempotent. -/

theorem not_mem_cons_split {x c : Char} {rest : List Char}
    (h : x ∉ c :: rest) : c ≠ x ∧ x ∉ rest :=
  ⟨fun hcx => h (hcx ▸ List.mem_cons_self c rest),
   fun hm => h (List.mem_cons_of_mem c hm)⟩

theorem ticks3_eq_false {l : List Char} (h : '`' ∉ l) : ticks3 l = false := by
  simp only [ticks3, decide_eq_false_iff_not]
  intro heq
  have hmem : '`' ∈ l.take 3 := by rw [heq]; simp
  exact h (List.take_subset 3 l hmem)

theorem ticks2_eq_false {l : List Char} (h : '`' ∉ l) : ticks2 l = false := by
  simp only [ticks2, decide_eq_false_iff_not]
  intro heq
  have hmem : '`' ∈ l.take 2 := by rw [heq]; simp
  exact h (List.take_subset 2 l hmem)

theorem fenceOpenPass_id (fuel : Nat) (atLineStart : Bool) (l : List Char)
    (h : '`' ∉ l) : fenceOpenPass fuel atLineStart l = l := by
  induction fuel generalizing atLineStart l with
  | zero => cases l <;> rfl
  | succ fuel ih =>
    cases l with
    | nil => rfl
    | cons c rest =>
      obtain ⟨hc, hrest⟩ := not_mem_cons_split h
      simp [fenceOpenPass, ticks3_eq_false h, ih (isLineTerm c) rest hrest]

theorem fenceClosePass_id (fuel : Nat) (l : List Char)
    (h : '`' ∉ l) : fenceClosePass fuel l = l := by
  induction fuel generalizing l with
  | zero => cases l <;> rfl
  | succ fuel ih =>
    cases l with
    | nil => rfl
    | cons c rest =>
      obtain ⟨hc, hrest⟩ := not_mem_cons_split h
      have hbeq : (c == '`') = false := by simp [hc]
      simp [fenceClosePass, ticks3_eq_false hrest, hbeq, ih rest hrest]

theorem fenceLinePass_id (fuel : Nat) (atLineStart : Bool) (l : List Char)
    (h : '`' ∉ l) : fenceLinePass fuel atLineStart l = l := by
  induction fuel generalizing atLineStart l with
  | zero => cases l <;> rfl
  | succ fuel ih =>
    cases l with
    | nil => rfl
    | cons c rest =>
      obtain ⟨hc, hrest⟩ := not_mem_cons_split h
      have hbeq : (c == '`') = false := by simp [hc]
      simp [fenceLinePass, hbeq, ih (isLineTerm c) rest hrest]

theorem boldPass_id (fuel : Nat) (l : List Char)
    (h : '*' ∉ l) : boldPass fuel l = l := by
  induction fuel generalizing l with
  | zero => cases l <;> rfl
  | succ fuel ih =>
    cases l with
    | nil => rfl
    | cons c rest =>
      obtain ⟨hc, hrest⟩ := not_mem_cons_split h
      have hbeq : (c == '*') = false := by simp [hc]
      simp [boldPass, hbeq, ih rest hrest]

theorem italicPass_id (fuel : Nat) (l : List Char)
    (h : '*' ∉ l) : italicPass fuel l = l := by
  induction fuel generalizing l with
  | zero => cases l <;> rfl
  | succ fuel ih =>
    cases l with
    | nil => rfl
    | cons c rest =>
      obtain ⟨hc, hrest⟩ := not_mem_cons_split h
      have hbeq : (c == '*') = false := by simp [hc]
      simp [italicPass, hbeq, ih rest hrest]

theorem inlineCodePass_id (fuel : Nat) (l : List Char)
    (h : '`' ∉ l) : inlineCodePass fuel l = l := by
  induction fuel generalizing l with
  | zero => cases l <;> rfl
  | succ fuel ih =>
    cases l with
    | nil => rfl
    | cons c rest =>
      obtain ⟨hc, hrest⟩ := not_mem_cons_split h
      have hbeq : (c == '`') = false := by simp [hc]
      simp [inlineCodePass, hbeq, ih rest hrest]

theorem headingPass_id (fuel : Nat) (atLineStart : Bool) (l : List Char)
    (h : '#' ∉ l) : headingPass fuel atLineStart l = l := by
  induction fuel generalizing atLineStart l with
  | zero => cases l <;> rfl
  | succ fuel ih =>
    cases l with
    | nil => rfl
    | cons c rest =>
      obtain ⟨hc, hrest⟩ := not_mem_cons_split h
      have hbeq : (c == '#') = false := by simp [hc]
      simp [headingPass, hbeq, ih (isLineTerm c) rest hrest]


theorem mem_of_mem_dropWhile {p : Char → Bool} {x : Char} :
    ∀ {l : List Char}, x ∈ l.dropWhile p → x ∈ l := by
  intro l
  induction l with
  | nil => intro hx; exact hx
  | cons c rest ih =>
    intro hx
    rw [List.dropWhile_cons] at hx
    by_cases hpc : p c
    · simp only [hpc, if_true] at hx
      exact List.mem_cons_of_mem c (ih hx)
    · simp only [hpc, if_false] at hx
      exact hx

theorem length_dropWhile_le (p : Char → Bool) :
    ∀ l : List Char, (l.dropWhile p).length ≤ l.length := by
  intro l
  induction l with
  | nil => simp
  | cons c rest ih =>
    rw [List.dropWhile_cons]
    by_cases hpc : p c
    · simp only [hpc, if_true]
      exact Nat.le_succ_of_le ih
    · simp [hpc]

theorem dropWhile_dropWhile (p : Char → Bool) :
    ∀ l : List Char, List.dropWhile p (List.dropWhile p l) = List.dropWhile p l := by
  intro l
  induction l with
  | nil => rfl
  | cons c rest ih =>
    rw [List.dropWhile_cons]
    by_cases hpc : p c
    · simp only [hpc, if_true]
      exact ih
    · simp [List.dropWhile_cons, hpc]

theorem dropWhile_fix_head {p : Char → Bool} {c : Char} {t : List Char}
    (h : List.dropWhile p (c :: t) = c :: t) : p c = false := by
  cases hval : p c with
  | false => rfl
  | true =>
    rw [List.dropWhile_cons, hval, if_pos rfl] at h
    have hle := length_dropWhile_le p t
    rw [h] at hle
    simp at hle

theorem mem_of_mem_dropEndWhile {p : Char → Bool} {x : Char} {l : List Char}
    (h : x ∈ dropEndWhile p l) : x ∈ l := by
  unfold dropEndWhile at h
  rw [List.mem_reverse] at h
  exact List.mem_reverse.mp (mem_of_mem_dropWhile h)

theorem mem_of_mem_jsTrimList {x : Char} {l : List Char}
    (h : x ∈ jsTrimList l) : x ∈ l :=
  mem_of_mem_dropWhile (mem_of_mem_dropEndWhile h)

theorem dropEndWhile_dropEndWhile (p : Char → Bool) (l : List Char) :
    dropEndWhile p (dropEndWhile p l) = dropEndWhile p l := by
  simp [dropEndWhile, List.reverse_reverse, dropWhile_dropWhile]

theorem dropWhile_append_eq (p : Char → Bool) (l₁ l₂ : List Char) :
    (l₁ ++ l₂).dropWhile p
      = if (l₁.dropWhile p).isEmpty then l₂.dropWhile p
        else l₁.dropWhile p ++ l₂ := by
  induction l₁ with
  | nil => simp
  | cons c t ih =>
    rw [List.cons_append, List.dropWhile_cons, List.dropWhile_cons]
    cases hval : p c with
    | true => simpa [hval] using ih
    | false => simp [hval]

theorem dropWhile_dropEndWhile_dropWhile (p : Char → Bool) (l : List Char) :
    List.dropWhile p (dropEndWhile p (List.dropWhile p l))
      = dropEndWhile p (List.dropWhile p l) := by
  cases hm : List.dropWhile p l with
  | nil => simp [dropEndWhile]
  | cons c t =>
    have hfix : List.dropWhile p (c :: t) = c :: t := by
      rw [← hm]
      exact dropWhile_dropWhile p l
    have hpc : p c = false := dropWhile_fix_head hfix
    cases hrt : t.reverse.dropWhile p with
    | nil =>
      have hV : dropEndWhile p (c :: t) = [c] := by
        unfold dropEndWhile
        rw [List.reverse_cons, dropWhile_append_eq, hrt]
        simp [List.dropWhile_cons, hpc]
      rw [hV]
      simp [List.dropWhile_cons, hpc]
    | cons d t' =>
      have hV : dropEndWhile p (c :: t) = c :: (d :: t').reverse := by
        unfold dropEndWhile
        rw [List.reverse_cons, dropWhile_append_eq, hrt]
        simp
      rw [hV]
      simp [List.dropWhile_cons, hpc]

theorem jsTrimList_idem (l : List Char) :
    jsTrimList (jsTrimList l) = jsTrimList l := by
  unfold jsTrimList
  rw [dropWhile_dropEndWhile_dropWhile, dropEndWhile_dropEndWhile]

theorem dropWhile_fix_of_trim_fix {l : List Char} (h : jsTrimList l = l) :
    List.dropWhile isJsSpace l = l := by
  have h1 : (List.dropWhile isJsSpace l).length ≤ l.length :=
    length_dropWhile_le _ _
  have h2 : (jsTrimList l).length ≤ (List.dropWhile isJsSpace l).length := by
    unfold jsTrimList dropEndWhile
    rw [List.length_reverse]
    calc ((List.dropWhile isJsSpace l).reverse.dropWhile isJsSpace).length
        ≤ (List.dropWhile isJsSpace l).reverse.length := length_dropWhile_le _ _
      _ = (List.dropWhile isJsSpace l).length := List.length_reverse _
  rw [h] at h2
  exact (List.dropWhile_suffix isJsSpace).eq_of_length (Nat.le_antisymm h1 h2)

theorem dropEnd_fix_of_trim_fix {l : List Char} (h : jsTrimList l = l) :
    dropEndWhile isJsSpace l = l := by
  have hdw := dropWhile_fix_of_trim_fix h
  have heq : jsTrimList l = dropEndWhile isJsSpace l := by
    unfold jsTrimList
    rw [hdw]
  rw [← heq, h]

theorem trimmed_head_not_space {c : Char} {t : List Char}
    (h : jsTrimList (c :: t) = c :: t) : isJsSpace c = false :=
  dropWhile_fix_head (dropWhile_fix_of_trim_fix h)

theorem trimmed_getLast_not_space {l : List Char} {c : Char}
    (h : jsTrimList l = l) (hlast : l.getLast? = some c) :
    isJsSpace c = false := by
  have hde := dropEnd_fix_of_trim_fix h
  have hrev : List.dropWhile isJsSpace l.reverse = l.reverse := by
    have hcongr := congrArg List.reverse hde
    simpa [dropEndWhile, List.reverse_reverse] using hcongr
  have hhead : l.reverse.head? = some c := by
    rw [List.head?_reverse]
    exact hlast
  cases hr : l.reverse with
  | nil =>
    rw [hr] at hhead
    simp at hhead
  | cons d t' =>
    rw [hr] at hhead
    simp only [List.head?_cons, Option.some.injEq] at hhead
    rw [hr] at hrev
    have hd := dropWhile_fix_head hrev
    rwa [hhead] at hd


theorem splitOnChar_ne_nil (sep : Char) (l : List Char) :
    splitOnChar sep l ≠ [] := by
  cases l with
  | nil => simp [splitOnChar]
  | cons c rest =>
    simp only [splitOnChar]
    split
    · simp
    · split <;> simp

theorem sep_not_mem_splitOnChar (sep : Char) :
    ∀ (l : List Char), ∀ ln ∈ splitOnChar sep l, sep ∉ ln := by
  intro l
  induction l with
  | nil =>
    intro ln h
    simp only [splitOnChar, List.mem_singleton] at h
    subst h
    simp
  | cons c rest ih =>
    intro ln h
    simp only [splitOnChar] at h
    by_cases hc : c = sep
    · rw [if_pos hc] at h
      rcases List.mem_cons.mp h with h1 | h2
      · subst h1; simp
      · exact ih ln h2
    · rw [if_neg hc] at h
      cases hsp : splitOnChar sep rest with
      | nil => exact absurd hsp (splitOnChar_ne_nil sep rest)
      | cons a b =>
        rw [hsp] at h
        rcases List.mem_cons.mp h with h1 | h2
        · subst h1
          intro hm
          rcases List.mem_cons.mp hm with h3 | h4
          · exact hc h3.symm
          · exact ih a (hsp ▸ List.mem_cons_self a b) h4
        · exact ih ln (hsp ▸ List.mem_cons_of_mem a h2)

theorem mem_of_mem_splitOnChar (sep : Char) :
    ∀ (l : List Char), ∀ ln ∈ splitOnChar sep l, ∀ x ∈ ln, x ∈ l := by
  intro l
  induction l with
  | nil =>
    intro ln h x hx
    simp only [splitOnChar, List.mem_singleton] at h
    subst h
    simp at hx
  | cons c rest ih =>
    intro ln h x hx
    simp only [splitOnChar] at h
    by_cases hc : c = sep
    · rw [if_pos hc] at h
      rcases List.mem_cons.mp h with h1 | h2
      · subst h1; simp at hx
      · exact List.mem_cons_of_mem c (ih ln h2 x hx)
    · rw [if_neg hc] at h
      cases hsp : splitOnChar sep rest with
      | nil => exact absurd hsp (splitOnChar_ne_nil sep rest)
      | cons a b =>
        rw [hsp] at h
        rcases List.mem_cons.mp h with h1 | h2
        · subst h1
          rcases List.mem_cons.mp hx with h3 | h4
          · exact h3 ▸ List.mem_cons_self c rest
          · exact List.mem_cons_of_mem c (ih a (hsp ▸ List.mem_cons_self a b) x h4)
        · exact List.mem_cons_of_mem c (ih ln (hsp ▸ List.mem_cons_of_mem a h2) x hx)

theorem splitOnChar_of_not_mem (sep : Char) :
    ∀ ln : List Char, sep ∉ ln → splitOnChar sep ln = [ln] := by
  intro ln
  induction ln with
  | nil => intro _; rfl
  | cons c t ih =>
    intro h
    obtain ⟨hc, ht⟩ := not_mem_cons_split h
    simp only [splitOnChar]
    rw [if_neg (fun hcs => hc hcs), ih ht]

theorem splitOnChar_append_sep (sep : Char) :
    ∀ (ln m : List Char), sep ∉ ln →
      splitOnChar sep (ln ++ sep :: m) = ln :: splitOnChar sep m := by
  intro ln
  induction ln with
  | nil =>
    intro m _
    simp [splitOnChar]
  | cons c t ih =>
    intro m h
    obtain ⟨hc, ht⟩ := not_mem_cons_split h
    rw [List.cons_append]
    simp only [splitOnChar]
    rw [if_neg (fun hcs => hc hcs), ih m ht]

theorem splitOnChar_join (sep : Char) :
    ∀ ls : List (List Char), ls ≠ [] → (∀ ln ∈ ls, sep ∉ ln) →
      splitOnChar sep (joinWithChar sep ls) = ls := by
  intro ls
  induction ls with
  | nil => intro h _; exact absurd rfl h
  | cons ln ls' ih =>
    intro _ hall
    cases ls' with
    | nil =>
      simp only [joinWithChar]
      exact splitOnChar_of_not_mem sep ln (hall ln (List.mem_cons_self _ _))
    | cons ln2 ls'' =>
      have hjoin : joinWithChar sep (ln :: ln2 :: ls'')
          = ln ++ sep :: joinWithChar sep (ln2 :: ls'') := rfl
      rw [hjoin, splitOnChar_append_sep sep ln _ (hall ln (List.mem_cons_self _ _)),
        ih (by simp) fun x hx => hall x (List.mem_cons_of_mem ln hx)]

theorem joinWithChar_ne_nil (sep : Char) (ls : List (List Char)) (h : ls ≠ [])
    (hall : ∀ ln ∈ ls, ln ≠ []) : joinWithChar sep ls ≠ [] := by
  cases ls with
  | nil => exact absurd rfl h
  | cons ln ls' =>
    cases ls' with
    | nil => exact hall ln (by simp)
    | cons a b =>
      show ln ++ sep :: joinWithChar sep (a :: b) ≠ []
      simp

theorem mem_joinWithChar (sep : Char) :
    ∀ (ls : List (List Char)), ∀ x ∈ joinWithChar sep ls,
      x = sep ∨ ∃ ln ∈ ls, x ∈ ln := by
  intro ls
  induction ls with
  | nil => intro x h; simp [joinWithChar] at h
  | cons ln ls' ih =>
    intro x h
    cases ls' with
    | nil => exact Or.inr ⟨ln, by simp, h⟩
    | cons a b =>
      have hsplit : x ∈ ln ++ sep :: joinWithChar sep (a :: b) := h
      rcases List.mem_append.mp hsplit with h1 | h2
      · exact Or.inr ⟨ln, by simp, h1⟩
      · rcases List.mem_cons.mp h2 with h3 | h4
        · exact Or.inl h3
        · rcases ih x h4 with h5 | ⟨ln2, hmem, hx⟩
          · exact Or.inl h5
          · exact Or.inr ⟨ln2, List.mem_cons_of_mem ln hmem, hx⟩

theorem jsTrimList_join_fix :
    ∀ ls : List (List Char), ls ≠ [] →
      (∀ ln ∈ ls, jsTrimList ln = ln ∧ ln ≠ []) →
      jsTrimList (joinWithChar '\n' ls) = joinWithChar '\n' ls := by
  intro ls
  induction ls with
  | nil => intro h _; exact absurd rfl h
  | cons ln ls' ih =>
    intro _ hall
    cases ls' with
    | nil => exact (hall ln (by simp)).1
    | cons a b =>
      obtain ⟨htrim, hnonempty⟩ := hall ln (by simp)
      have hallrest : ∀ x ∈ a :: b, jsTrimList x = x ∧ x ≠ [] :=
        fun x hx => hall x (List.mem_cons_of_mem ln hx)
      have hJ : jsTrimList (joinWithChar '\n' (a :: b)) = joinWithChar '\n' (a :: b) :=
        ih (by simp) hallrest
      have hJne : joinWithChar '\n' (a :: b) ≠ [] :=
        joinWithChar_ne_nil '\n' _ (by simp) fun x hx => (hallrest x hx).2
      obtain ⟨c, t, hln⟩ : ∃ c t, ln = c :: t := by
        cases ln with
        | nil => exact absurd rfl hnonempty
        | cons c t => exact ⟨c, t, rfl⟩
      have hheadc : isJsSpace c = false := trimmed_head_not_space (hln ▸ htrim)
      obtain ⟨d, w, hw⟩ : ∃ d w, (joinWithChar '\n' (a :: b)).reverse = d :: w := by
        cases hrev : (joinWithChar '\n' (a :: b)).reverse with
        | nil => exact absurd (List.reverse_eq_nil_iff.mp hrev) hJne
        | cons u v => exact ⟨u, v, rfl⟩
      have hd : (joinWithChar '\n' (a :: b)).getLast? = some d := by
        rw [← List.head?_reverse, hw]
        rfl
      have hdns : isJsSpace d = false := trimmed_getLast_not_space hJ hd
      show jsTrimList (ln ++ '\n' :: joinWithChar '\n' (a :: b))
          = ln ++ '\n' :: joinWithChar '\n' (a :: b)
      have hdw : List.dropWhile isJsSpace (ln ++ '\n' :: joinWithChar '\n' (a :: b))
          = ln ++ '\n' :: joinWithChar '\n' (a :: b) := by
        rw [hln, List.cons_append]
        simp [List.dropWhile_cons, hheadc]
      have hde : dropEndWhile isJsSpace (ln ++ '\n' :: joinWithChar '\n' (a :: b))
          = ln ++ '\n' :: joinWithChar '\n' (a :: b) := by
        have hfix : List.dropWhile isJsSpace
            (ln ++ '\n' :: joinWithChar '\n' (a :: b)).reverse
            = (ln ++ '\n' :: joinWithChar '\n' (a :: b)).reverse := by
          rw [List.reverse_append, List.reverse_cons, hw]
          rw [List.append_assoc, List.cons_append]
          simp [List.dropWhile_cons, hdns]
        calc dropEndWhile isJsSpace (ln ++ '\n' :: joinWithChar '\n' (a :: b))
            = ((ln ++ '\n' :: joinWithChar '\n' (a :: b)).reverse.dropWhile
                isJsSpace).reverse := rfl
          _ = (ln ++ '\n' :: joinWithChar '\n' (a :: b)).reverse.reverse := by
              rw [hfix]
          _ = ln ++ '\n' :: joinWithChar '\n' (a :: b) := List.reverse_reverse _
      have hcomb : jsTrimList (ln ++ '\n' :: joinWithChar '\n' (a :: b))
          = dropEndWhile isJsSpace (ln ++ '\n' :: joinWithChar '\n' (a :: b)) := by
        unfold jsTrimList
        rw [hdw]
      rw [hcomb, hde]

/-- The trailing trim/split/trim-lines/drop-blanks/rejoin normalisation of the
sanitizer, as a standalone function (used to state its idempotence). -/
def lineNorm (l : List Char) : List Char :=
  joinWithChar '\n'
    (((splitOnChar '\n' (jsTrimList l)).map jsTrimList).filter fun ln => !ln.isEmpty)

theorem lineNorm_line_props (l : List Char) :
    ∀ ln ∈ ((splitOnChar '\n' (jsTrimList l)).map jsTrimList).filter
        (fun ln => !ln.isEmpty),
      jsTrimList ln = ln ∧ ln ≠ [] ∧ '\n' ∉ ln := by
  intro ln hln
  obtain ⟨hmem, hne⟩ := List.mem_filter.mp hln
  obtain ⟨x, hx, rfl⟩ := List.mem_map.mp hmem
  refine ⟨jsTrimList_idem x, ?_, ?_⟩
  · intro hnil
    rw [hnil] at hne
    simp at hne
  · intro hmm
    exact (sep_not_mem_splitOnChar '\n' (jsTrimList l) x hx)
      (mem_of_mem_jsTrimList hmm)

theorem lineNorm_idem (l : List Char) : lineNorm (lineNorm l) = lineNorm l := by
  cases hls : ((splitOnChar '\n' (jsTrimList l)).map jsTrimList).filter
      (fun ln => !ln.isEmpty) with
  | nil =>
    have hlnorm : lineNorm l = [] := by
      unfold lineNorm
      rw [hls]
      rfl
    rw [hlnorm]
    rfl
  | cons a b =>
    have hall : ∀ ln ∈ a :: b, jsTrimList ln = ln ∧ ln ≠ [] ∧ '\n' ∉ ln := by
      intro ln hln
      exact lineNorm_line_props l ln (hls ▸ hln)
    have hlnorm : lineNorm l = joinWithChar '\n' (a :: b) := by
      unfold lineNorm
      rw [hls]
    rw [hlnorm]
    unfold lineNorm
    rw [jsTrimList_join_fix _ (by simp) fun x hx => ⟨(hall x hx).1, (hall x hx).2.1⟩]
    rw [splitOnChar_join '\n' _ (by simp) fun x hx => (hall x hx).2.2]
    have hmapfix : ∀ (xs : List (List Char)), (∀ x ∈ xs, jsTrimList x = x) →
        xs.map jsTrimList = xs := by
      intro xs hfix
      induction xs with
      | nil => rfl
      | cons u v ihm =>
        rw [List.map_cons, hfix u (by simp),
          ihm fun y hy => hfix y (List.mem_cons_of_mem u hy)]
    rw [hmapfix _ fun x hx => (hall x hx).1]
    rw [List.filter_eq_self.mpr fun x hx => by
      have hxe := (hall x hx).2.1
      obtain ⟨u, v, rfl⟩ : ∃ u v, x = u :: v := by
        cases x with
        | nil => exact absurd rfl hxe
        | cons u v => exact ⟨u, v, rfl⟩
      rfl]

theorem cleanList_eq_lineNorm (l : List Char) (h1 : '#' ∉ l) (h2 : '*' ∉ l)
    (h3 : '`' ∉ l) : cleanCommitMessageList l = lineNorm l := by
  have h1' : '#' ∉ jsTrimList l := fun hm => h1 (mem_of_mem_jsTrimList hm)
  have h2' : '*' ∉ jsTrimList l := fun hm => h2 (mem_of_mem_jsTrimList hm)
  have h3' : '`' ∉ jsTrimList l := fun hm => h3 (mem_of_mem_jsTrimList hm)
  simp only [cleanCommitMessageList, lineNorm, runFenceOpen, runFenceClose,
    runFenceLine, runBold, runItalic, runInlineCode, runHeading]
  rw [fenceOpenPass_id _ _ _ h3', fenceClosePass_id _ _ h3',
    fenceLinePass_id _ _ _ h3', boldPass_id _ _ h2', italicPass_id _ _ h2',
    inlineCodePass_id _ _ h3', headingPass_id _ _ _ h1', jsTrimList_idem]

theorem string_data_mk (l : List Char) : (⟨l⟩ : String).data = l := rfl

set_option maxHeartbeats 1000000 in
/-- C3 (amended): the sanitizer is not idempotent in general (see the
counterexample), but it is idempotent on every input containing none of the
markdown marker characters `#`, `*`, `` ` `` that its replacement passes act
on: for such `x`, `sanitize (sanitize x) = sanitize x`. -/
theorem cleanCommitMessage_idempotent_of_marker_free (s : String)
    (h1 : '#' ∉ s.data) (h2 : '*' ∉ s.data) (h3 : '`' ∉ s.data) :
    cleanCommitMessage (cleanCommitMessage s) = cleanCommitMessage s := by
  have hboth : ∀ x, x ∈ cleanCommitMessageList s.data → x = '\n' ∨ x ∈ s.data := by
    intro x hx
    rw [cleanList_eq_lineNorm s.data h1 h2 h3] at hx
    unfold lineNorm at hx
    rcases mem_joinWithChar '\n' _ x hx with h | ⟨ln, hln, hxln⟩
    · exact Or.inl h
    · obtain ⟨hmemf, _⟩ := List.mem_filter.mp hln
      obtain ⟨y, hy, rfl⟩ := List.mem_map.mp hmemf
      exact Or.inr (mem_of_mem_jsTrimList
        (mem_of_mem_splitOnChar '\n' _ y hy x (mem_of_mem_jsTrimList hxln)))
  have g1 : '#' ∉ cleanCommitMessageList s.data := by
    intro hm
    rcases hboth _ hm with h | h
    · exact absurd h (by decide)
    · exact h1 h
  have g2 : '*' ∉ cleanCommitMessageList s.data := by
    intro hm
    rcases hboth _ hm with h | h
    · exact absurd h (by decide)
    · exact h2 h
  have g3 : '`' ∉ cleanCommitMessageList s.data := by
    intro hm
    rcases hboth _ hm with h | h
    · exact absurd h (by decide)
    · exact h3 h
  have key : cleanCommitMessageList (cleanCommitMessageList s.data)
      = cleanCommitMessageList s.data := by
    rw [cleanList_eq_lineNorm _ g1 g2 g3, cleanList_eq_lineNorm _ h1 h2 h3]
    exact lineNorm_idem s.data
  simp only [cleanCommitMessage]
  rw [string_data_mk, key]

theorem cleanCommitMessage_idempotent_of_marker_free_witness :
    ('#' ∉ ("  feat: add login\n\nbody text  " : String).data
      ∧ '*' ∉ ("  feat: add login\n\nbody text  " : String).data
      ∧ '`' ∉ ("  feat: add login\n\nbody text  " : String).data)
    ∧ cleanCommitMessage (cleanCommitMessage "  feat: add login\n\nbody text  ")
        = cleanCommitMessage "  feat: add login\n\nbody text  " :=
  ⟨⟨by decide, by decide, by decide⟩,
   cleanCommitMessage_idempotent_of_marker_free "  feat: add login\n\nbody text  "
     (by decide) (by decide) (by decide)⟩


/-! ## `src/ai.js` — the advisory message linter `validateCommitMessage`

`validateCommitMessage` returns a list of warning strings; it has no
rejection path (its only output is the warning list, which callers display
alongside the proposed message), so a warning never prevents a commit. -/

/-- `COMMIT_RULES.subject.maxLength` (`src/constants.js`). -/
def COMMIT_SUBJECT_MAX : Nat := 50

/-- `COMMIT_RULES.body.maxLineLength` (`src/constants.js`). -/
def COMMIT_BODY_MAX : Nat := 111

/-- The fixed past-tense word list of the imperative-mood heuristic. -/
def pastTenseWords : List String :=
  ["added", "fixed", "updated", "removed", "changed", "modified"]

/-- `[a-z]`. -/
def isLowerAZ (c : Char) : Bool :=
  'a' ≤ c && c ≤ 'z'

/-- `[A-Z]`. -/
def isUpperAZ (c : Char) : Bool :=
  'A' ≤ c && c ≤ 'Z'

/-- Does the first character satisfy `p`? (`/^[a-z]/` and `/^[A-Z]/`.) -/
def headMatches (p : Char → Bool) : List Char → Bool
  | [] => false
  | c :: _ => p c

/-- `/^[A-Z][A-Z]/`. -/
def startsWithTwoUpper : List Char → Bool
  | c1 :: c2 :: _ => isUpperAZ c1 && isUpperAZ c2
  | _ => false

/-- Model of `subject.match(/^([a-z]+)(\([^)]+\))?: (.+)$/)`, returning the
description group the validator inspects (`none` when the regex fails).  The
greedy `[a-z]+` cannot backtrack usefully (`(` and `:` are not in `[a-z]`),
and `[^)]+` is cut off by the unique next `)`, so the match is
deterministic; `.` does not match line terminators. -/
def matchConventional (subject : List Char) : Option (List Char) :=
  let ty := subject.takeWhile isLowerAZ
  let rest := subject.dropWhile isLowerAZ
  if ty.isEmpty then none
  else
    match rest with
    | '(' :: r1 =>
      let scope := r1.takeWhile fun c => c != ')'
      let r2 := r1.dropWhile fun c => c != ')'
      if scope.isEmpty then none
      else
        match r2 with
        | ')' :: ':' :: ' ' :: desc =>
          if desc.isEmpty || desc.any isLineTerm then none else some desc
        | _ => none
    | ':' :: ' ' :: desc =>
      if desc.isEmpty || desc.any isLineTerm then none else some desc
    | _ => none

/-- The indexed `bodyLines.forEach` of the validator: warn for each body line
longer than `COMMIT_RULES.body.maxLineLength` (line numbers start at 3). -/
def bodyLineWarnings : Nat → List String → List String
  | _, [] => []
  | i, line :: rest =>
    (if line.length > COMMIT_BODY_MAX then
      ["Body line " ++ toString (i + 3) ++ " is " ++ toString line.length
        ++ " characters (should be ≤ " ++ toString COMMIT_BODY_MAX ++ ")"]
    else [])
    ++ bodyLineWarnings (i + 1) rest

/-- `AIService.validateCommitMessage`: the advisory warning list, in the
order the source pushes the warnings. -/
def validateCommitMessage (commitStyle : String) (message : String) :
    List String :=
  let lines := strSplit message '\n'
  let subject := lines.headD ""
  let lengthWarnings :=
    if subject.length > COMMIT_SUBJECT_MAX then
      ["Subject line is " ++ toString subject.length
        ++ " characters (should be ≤ " ++ toString COMMIT_SUBJECT_MAX ++ ")"]
    else []
  let periodWarnings :=
    if strEndsWith subject "." then
      ["Subject line should not end with a period"]
    else []
  let styleWarnings :=
    if commitStyle = "conventional" then
      match matchConventional subject.data with
      | some desc =>
        (if !(strIncludes subject ": ") then
          ["Missing space after colon in conventional commit format"]
        else [])
        ++ (if !(headMatches isLowerAZ desc) && !(startsWithTwoUpper desc) then
          ["Commit description should start with lowercase letter (except proper nouns)"]
        else [])
      | none =>
        ["Invalid conventional commit format. Expected: type(scope): description"]
    else
      if !(headMatches isUpperAZ subject.data) then
        ["Subject line should start with a capital letter (for non-conventional commits)"]
      else []
  let moodWarnings :=
    if pastTenseWords.any (fun w => strIncludes (jsToLower subject) w) then
      ["Consider using imperative mood (add, fix, update instead of added, fixed, updated)"]
    else []
  let bodyWarnings := bodyLineWarnings 0 (lines.drop 2)
  let breakingWarnings :=
    if strIncludes subject "!" || strIncludes (jsToLower message) "breaking change:" then
      ["Breaking change detected - ensure proper documentation and communication"]
    else []
  lengthWarnings ++ periodWarnings ++ styleWarnings ++ moodWarnings
    ++ bodyWarnings ++ breakingWarnings

/-- C8: for the subject line `"Added new login flow."` under the conventional
style, the validator's warning list contains both the trailing-period warning
and the past-tense (imperative-mood) warning; the full list returned is
exactly the three advisory strings below — the function returns warnings
without any rejection, so the message is never prevented from being
committed. -/
theorem validate_past_tense_and_period :
    "Subject line should not end with a period"
        ∈ validateCommitMessage "conventional" "Added new login flow."
    ∧ "Consider using imperative mood (add, fix, update instead of added, fixed, updated)"
        ∈ validateCommitMessage "conventional" "Added new login flow."
    ∧ validateCommitMessage "conventional" "Added new login flow."
        = ["Subject line should not end with a period",
           "Invalid conventional commit format. Expected: type(scope): description",
           "Consider using imperative mood (add, fix, update instead of added, fixed, updated)"] := by
  refine ⟨?_, ?_, ?_⟩ <;> decide

end AICommit






